import Mathlib

/- Verification of the PaperPulse ingestion-and-ranking pipeline and hybrid
retrieval engine.  The definitions below are a shallow embedding of the core
routines of the repository: backend/app/services/pipeline_service.py,
chunking_service.py, rerank_service.py, openai_service.py and
backend/app/routers/ask.py.  Python dict records are modelled as structures
whose missing string keys are the empty string; external services (OpenAI,
Cohere, the relational store) are modelled as explicit call parameters that
may fail, mirroring exactly how each caller handles the failure. -/

/-- A paper record as passed between pipeline stages (a Python dict with
string fields; a missing key is modelled by the empty string, the optional
Cohere relevance score, injected only by the reranker, by an Option). -/
structure PaperRec where
  arxiv_id : String := ""
  title : String := ""
  abstract : String := ""
  full_text : String := ""
  abstract_vector : List Int := []
  summary : String := ""
  rerank_score : Option ℚ := none
deriving DecidableEq, Repr

/-- A feed_items row: unique per (user_id, paper_id) in the relational store. -/
structure FeedRec where
  user_id : String
  paper_id : String
  relevance_score : ℚ
  is_saved : Bool
deriving DecidableEq, Repr

/-- A paper_chunks record as produced by chunking_service.chunk_paper. -/
structure ChunkRec where
  paper_id : String
  chunk_index : Nat
  chunk_text : String
deriving DecidableEq, Repr

/-- Python str.strip(chars): remove the given characters from both ends. -/
def stripCharsList (cs : List Char) (l : List Char) : List Char :=
  ((l.dropWhile (· ∈ cs)).reverse.dropWhile (· ∈ cs)).reverse

/-- Python str.strip(chars) on strings. -/
def stripChars (cs : List Char) (s : String) : String :=
  String.mk (stripCharsList cs s.toList)

/-- Python str.strip(): remove whitespace from both ends. -/
def stripWs (s : String) : String :=
  String.mk (((s.toList.dropWhile Char.isWhitespace).reverse.dropWhile
    Char.isWhitespace).reverse)

/-- Python str.lower() (ASCII letters, as in all strings handled here). -/
def lowerStr (s : String) : String := String.mk (s.toList.map Char.toLower)

/-- Python s[:n] — the first n characters of a string. -/
def takeChars (n : Nat) (s : String) : String := String.mk (s.toList.take n)

/-- Split a character list at every character satisfying p; the pieces
between delimiters are returned in order (empty pieces included). -/
def splitOnPredAux (p : Char → Bool) (acc : List Char) :
    List Char → List (List Char)
  | [] => [acc.reverse]
  | c :: rest =>
    if p c then acc.reverse :: splitOnPredAux p [] rest
    else splitOnPredAux p (c :: acc) rest

/-- Split a string at every character satisfying p. -/
def splitOnPred (p : Char → Bool) (s : String) : List String :=
  (splitOnPredAux p [] s.toList).map String.mk

/-- Python str.split() — split on whitespace, dropping empty pieces. -/
def wsSplit (s : String) : List String :=
  (splitOnPred Char.isWhitespace s).filter (· ≠ "")

/-- The fixed stop-word set of backend/app/routers/ask.py (_STOP_WORDS). -/
def STOP_WORDS : List String := [
  "the", "a", "an", "and", "or", "but", "in", "on", "at", "to", "for",
  "of", "with", "by", "from", "is", "it", "this", "that", "are", "was",
  "were", "been", "be", "have", "has", "had", "do", "does", "did",
  "will", "would", "could", "should", "may", "might", "can", "shall",
  "about", "into", "through", "during", "before", "after", "above",
  "below", "between", "out", "off", "over", "under", "again", "then",
  "here", "there", "when", "where", "why", "how", "all", "each",
  "every", "both", "few", "more", "most", "other", "some", "such",
  "no", "not", "only", "own", "same", "so", "than", "too", "very",
  "just", "explain", "what", "paper", "describe", "tell", "me",
  "summarize", "summary", "overview", "details", "using", "based",
  "its", "my", "your", "our", "their", "i", "we", "you", "they"]

/-- The punctuation characters stripped from token ends in ask.py
(the Python literal ".,;:!?\x22\x27()-"). -/
def STRIP_SET : List Char :=
  ['.', ',', ';', ':', '!', '?', '\x22', '\x27', '(', ')', '-']

/-- One token of ask.py scoring: w.strip(".,;:!?\x22\x27()-").lower(). -/
def normToken (w : String) : String := lowerStr (stripChars STRIP_SET w)

/-- The set of significant words of a text, as built in _find_title_matches:
split on whitespace, strip punctuation, lower-case (a Python set, modelled
as a duplicate-free list), then drop words of length at most 2 and members
of the stop-word set. -/
def wordSet (s : String) : List String :=
  (((wsSplit s).map normToken).eraseDups).filter
    (fun w => decide (2 < w.length) && !(STOP_WORDS.contains w))

/-- Stable insertion of x into a list: before the first y with le x y. -/
def insertLe {α : Type} (le : α → α → Bool) (x : α) : List α → List α
  | [] => [x]
  | y :: ys => if le x y then x :: y :: ys else y :: insertLe le x ys

/-- Stable insertion sort, equivalent to Python list.sort with a key:
elements with equal keys keep their original relative order. -/
def sortByKey {α : Type} (le : α → α → Bool) (l : List α) : List α :=
  l.foldr (insertLe le) []

/-- The comparator of _find_title_matches: Python sorts ascending by the
key (-score_frac, -overlap), i.e. descending by (score_frac, overlap). -/
def scoreLe (a b : ℚ × Nat × PaperRec) : Bool :=
  decide (b.1 < a.1) || (decide (a.1 = b.1) && decide (b.2.1 ≤ a.2.1))

/-- ask.py _find_title_matches: score every paper of the user feed by
significant-word overlap with the question; keep papers with overlap at
least 3 and overlap / title-word-count at least 0.4; sort by
(overlap fraction desc, overlap desc) and return the first three.  The two
database reads (feed rows and paper metadata) are modelled by the `papers`
argument. -/
def find_title_matches (question : String) (papers : List PaperRec) :
    List PaperRec :=
  let q_words := wordSet question
  let scored := papers.filterMap (fun paper =>
    let t_words := wordSet paper.title
    if t_words.isEmpty then none
    else
      let overlap := (q_words.filter (fun w => t_words.contains w)).length
      let frac : ℚ := (overlap : ℚ) / (t_words.length : ℚ)
      if 3 ≤ overlap ∧ (0.4 : ℚ) ≤ frac then some (frac, overlap, paper)
      else none)
  ((sortByKey scoreLe scored).map (fun x => x.2.2)).take 3

/-- The title deduplication key of pipeline_service._deduplicate_papers:
p.get("title", "").lower().strip()[:100] — lower-case, strip leading and
trailing whitespace, take the first 100 characters.  Internal whitespace is
left as is. -/
def titleKey (p : PaperRec) : String := takeChars 100 (stripWs (lowerStr p.title))

/-- The mutable state of _deduplicate_papers: the seen_ids set, the
seen_titles set (both modelled as lists used only through membership) and
the merged output in order. -/
structure DedupSt where
  ids : List String
  titles : List String
  merged : List PaperRec
deriving Repr

/-- One iteration of the _deduplicate_papers loop body: skip the candidate
if its arxiv_id or its title key was already seen; otherwise record the
arxiv_id (always, even when empty), record the title key only when it is
non-empty, and append the candidate to the merged output. -/
def dedupStep (st : DedupSt) (p : PaperRec) : DedupSt :=
  if p.arxiv_id ∈ st.ids ∨ titleKey p ∈ st.titles then st
  else
    { ids := p.arxiv_id :: st.ids
      titles := if titleKey p = "" then st.titles else titleKey p :: st.titles
      merged := st.merged ++ [p] }

/-- The inner loop of _deduplicate_papers over one candidate list. -/
def dedupGo (st : DedupSt) (papers : List PaperRec) : DedupSt :=
  papers.foldl dedupStep st

/-- The initial dedup state: empty seen sets, empty output. -/
def dedupInit : DedupSt := { ids := [], titles := [], merged := [] }

/-- pipeline_service._deduplicate_papers: merge candidate lists in order,
dropping a candidate whose arxiv_id or whose non-empty title key was
already seen; the first-seen entry is kept unchanged. -/
def deduplicate_papers (paper_lists : List (List PaperRec)) : List PaperRec :=
  (paper_lists.foldl dedupGo dedupInit).merged

/-- The state of the ask.py merge loop: seen canonical ids and the merged
retrieval context in order. -/
def mergeStep (st : List String × List PaperRec) (p : PaperRec) :
    List String × List PaperRec :=
  if p.arxiv_id ∈ st.1 then st else (p.arxiv_id :: st.1, st.2 ++ [p])

/-- The merge step 3 of ask.py _retrieve_context: title matches first, then
vector results, deduplicated by arxiv_id with the first occurrence winning. -/
def merge_context (title_matches vector_papers : List PaperRec) :
    List PaperRec :=
  ((title_matches ++ vector_papers).foldl mergeStep ([], [])).2

/-- The Cohere rerank endpoint as seen by rerank_service: given the query,
the document texts and top_n it either fails or returns (original index,
relevance score) pairs. -/
def RerankClient : Type :=
  String → List String → Nat → Except String (List (Nat × ℚ))

/-- rerank_service.rerank_papers: empty input gives empty output; a missing
API key (client = none) degrades to the input order truncated to top_n; a
raising call (including an out-of-range index in the response, which the
enclosing try would also catch) degrades the same way; otherwise the papers
are reordered by the response with the relevance score injected. -/
def rerank_papers (client : Option RerankClient) (query : String)
    (papers : List PaperRec) (top_n : Nat) : List PaperRec :=
  if papers.isEmpty then []
  else
    match client with
    | none => papers.take top_n
    | some call =>
      let documents := papers.map (fun p =>
        p.title ++ ". " ++ (if p.full_text ≠ "" then p.full_text else p.abstract))
      match call query documents (min top_n papers.length) with
      | Except.error _ => papers.take top_n
      | Except.ok results =>
        if results.all (fun r => r.1 < papers.length) then
          results.map (fun r =>
            { (papers.getD r.1 {}) with rerank_score := some r.2 })
        else papers.take top_n

/-- pipeline_service.TOP_MATCHES_PER_USER. -/
def TOP_MATCHES_PER_USER : Nat := 25

/-- The per-user ranking decision of run_daily_pipeline step 6: pools
larger than TOP_MATCHES_PER_USER go through Cohere rerank, all other pools
pass through unchanged (and the rerank client is never consulted). -/
def rank_stage (client : Option RerankClient) (query : String)
    (user_pool : List PaperRec) : List PaperRec :=
  if user_pool.length > TOP_MATCHES_PER_USER then
    rerank_papers client query user_pool TOP_MATCHES_PER_USER
  else user_pool

/-- The feed-record construction of run_daily_pipeline step 6: each ranked
paper becomes a feed row whose relevance score is its injected rerank score
when present, and 1.0 - rank / max(len(reranked), 1) otherwise. -/
def build_feed_records (user_id : String) (reranked : List PaperRec) :
    List FeedRec :=
  reranked.enum.map (fun ip =>
    { user_id := user_id
      paper_id := ip.2.arxiv_id
      relevance_score := ip.2.rerank_score.getD
        (1 - (ip.1 : ℚ) / ((max reranked.length 1 : Nat) : ℚ))
      is_saved := false })

/-- The OpenAI batch-embedding endpoint as seen by openai_service: either
fails or returns (index, vector) pairs, possibly out of order. -/
def EmbedCall : Type := List String → Except String (List (Nat × List Int))

/-- The OpenAI summarization endpoint as seen by openai_service. -/
def SummCall : Type := String → Except String String

/-- openai_service.get_embeddings_batch: empty input short-circuits; a
successful response is sorted by index and the embeddings extracted; any
failure is caught and yields one empty vector per input text. -/
def get_embeddings_batch (call : EmbedCall) (texts : List String) :
    List (List Int) :=
  if texts.isEmpty then []
  else
    match call texts with
    | Except.ok ds => (sortByKey (fun a b => decide (a.1 ≤ b.1)) ds).map (·.2)
    | Except.error _ => texts.map (fun _ => [])

/-- openai_service.generate_paper_summary: a successful completion is
stripped; any failure is caught and yields the fixed placeholder text. -/
def generate_paper_summary (call : SummCall) (abstract : String) : String :=
  match call abstract with
  | Except.ok s => stripWs s
  | Except.error _ => "Summary could not be generated."

/-- Python dict.get on a string-to-string dict modelled as an association
list. -/
def lookupStr (l : List (String × String)) (k : String) : Option String :=
  (l.find? (fun kv => kv.1 = k)).map (·.2)

/-- The per-batch body of run_daily_pipeline step 4: embed the batch texts
(title + ". " + abstract), then for each (pid, record)-vector pair set the
abstract_vector, backfill full_text when extraction produced one, attach
the generated summary, and insert the record into the papers table
(modelled as an append; the record is persisted whether or not the
embedding or summarization call failed, since both failures are caught
inside openai_service). -/
def step4_record (summCall : SummCall) (full_texts : List (String × String))
    (pr : (String × PaperRec) × List Int) : PaperRec :=
  let rec1 := { pr.1.2 with abstract_vector := pr.2 }
  let ft := (lookupStr full_texts pr.1.1).getD ""
  let rec2 := if ft = "" then rec1 else { rec1 with full_text := ft }
  { rec2 with summary := generate_paper_summary summCall rec2.abstract }

/-- The iteration over one batch of run_daily_pipeline step 4 (see
step4_record for the per-record transformation). -/
def step4_embed_batch (embedCall : EmbedCall) (summCall : SummCall)
    (full_texts : List (String × String)) (table : List PaperRec)
    (batch : List (String × PaperRec)) : List PaperRec :=
  (batch.zip (get_embeddings_batch embedCall
      (batch.map (fun pr => pr.2.title ++ ". " ++ pr.2.abstract)))).foldl
    (fun tb pr => tb ++ [step4_record summCall full_texts pr]) table

/-- Membership test for a (user_id, paper_id) feed key. -/
def feedKeyHit (u p : String) (x : FeedRec) : Bool :=
  decide (x.user_id = u) && decide (x.paper_id = p)

/-- The number of stored feed rows with the given (user_id, paper_id) key. -/
def countFeedKey (store : List FeedRec) (u p : String) : Nat :=
  store.countP (feedKeyHit u p)

/-- Modelled from the spec: the relational store enforces a unique
constraint on (user_id, paper_id) for feed_items inserts; a duplicate
insert raises a unique-constraint error and leaves the table unchanged.
The store itself is an external collaborator and is not part of the source
tree. -/
def insert_feed_item (store : List FeedRec) (r : FeedRec) :
    Except Unit (List FeedRec) :=
  if store.any (feedKeyHit r.user_id r.paper_id) then Except.error ()
  else Except.ok (store ++ [r])

/-- The feed-saving loop of run_daily_pipeline step 6: insert each record,
counting successes; a raising insert (unique-constraint conflict) is
swallowed by the bare except and the loop continues with the next record. -/
def saveStepCount (st : List FeedRec × Nat) (r : FeedRec) :
    List FeedRec × Nat :=
  match insert_feed_item st.1 r with
  | Except.ok store2 => (store2, st.2 + 1)
  | Except.error _ => st

/-- save_feed_items with the success counter. -/
def save_feed_items (store : List FeedRec) (records : List FeedRec) :
    List FeedRec × Nat :=
  records.foldl saveStepCount (store, 0)

/-- chunking_service.CHUNK_SIZE_TOKENS. -/
def CHUNK_SIZE_TOKENS : Nat := 512

/-- chunking_service.CHUNK_OVERLAP_TOKENS. -/
def CHUNK_OVERLAP_TOKENS : Nat := 50

/-- chunking_service.MIN_CHUNK_TOKENS. -/
def MIN_CHUNK_TOKENS : Nat := 50

/-- Split at every maximal run of two or more newline characters, as
re.split of a double-newline pattern does: a single newline stays inside
its piece.  acc holds the reversed current piece, nl counts the pending
consecutive newlines not yet committed. -/
def splitDoubleNLAux (acc : List Char) (nl : Nat) :
    List Char → List (List Char)
  | [] =>
    if 2 ≤ nl then [acc.reverse, []]
    else [(List.replicate nl '\n' ++ acc).reverse]
  | c :: rest =>
    if c = '\n' then splitDoubleNLAux acc (nl + 1) rest
    else if 2 ≤ nl then acc.reverse :: splitDoubleNLAux [c] 0 rest
    else splitDoubleNLAux (c :: (List.replicate nl '\n' ++ acc)) 0 rest

/-- String version of the double-newline split. -/
def splitDoubleNL (s : String) : List String :=
  (splitDoubleNLAux [] 0 s.toList).map String.mk

/-- The sentence-ending punctuation of the chunker. -/
def SENT_PUNCTS : List Char := ['.', '!', '?']

/-- Split after a sentence-ending punctuation character followed by a
whitespace run, consuming the whitespace, as re.split with a lookbehind
for the punctuation does: the punctuation stays with the left piece.  acc
holds the reversed current piece, pend the reversed pending whitespace
run, punct whether the character before the pending run ended a
sentence. -/
def splitSentencesAux (acc pend : List Char) (punct : Bool) :
    List Char → List (List Char)
  | [] =>
    if pend ≠ [] ∧ punct = true then [acc.reverse, []]
    else [(pend ++ acc).reverse]
  | c :: rest =>
    if c.isWhitespace then splitSentencesAux acc (c :: pend) punct rest
    else if pend ≠ [] ∧ punct = true then
      acc.reverse :: splitSentencesAux [c] [] (decide (c ∈ SENT_PUNCTS)) rest
    else
      splitSentencesAux (c :: (pend ++ acc)) [] (decide (c ∈ SENT_PUNCTS)) rest

/-- String version of the sentence split. -/
def splitSentences (s : String) : List String :=
  (splitSentencesAux [] [] false s.toList).map String.mk

/-- chunking_service._split_into_paragraphs, parameterized by the token
counter ct (the source delegates counting to the tiktoken cl100k_base
encoder, an external black box): split on double newlines, strip each
paragraph, drop empties, and sub-split any paragraph above twice the chunk
budget on single newlines. -/
def split_into_paragraphs (ct : String → Nat) (text : String) : List String :=
  (splitDoubleNL text).foldl (fun result para =>
    let para := stripWs para
    if para = "" then result
    else if ct para > CHUNK_SIZE_TOKENS * 2 then
      result ++ ((splitOnPred (· = '\n') para).map stripWs).filter (· ≠ "")
    else result ++ [para]) []

/-- The loop of chunking_service._get_overlap_parts: walk the parts from
the end, prepending, and stop before a part that would push the total past
the target when the overlap is already non-empty. -/
def overlapAux (ct : String → Nat) (target : Nat) :
    List String → List String → Nat → List String
  | [], ovl, _ => ovl
  | part :: more, ovl, toks =>
    let pt := ct part
    if toks + pt > target ∧ ovl ≠ [] then ovl
    else overlapAux ct target more (part :: ovl) (toks + pt)

/-- chunking_service._get_overlap_parts: the trailing parts totalling about
target tokens (always at least one part when parts is non-empty and the
target is positive). -/
def get_overlap_parts (ct : String → Nat) (parts : List String)
    (target : Nat) : List String :=
  if target = 0 then [] else overlapAux ct target parts.reverse [] 0

/-- The mutable state of _merge_paragraphs_into_chunks: flushed chunks, the
parts of the chunk being built, and their running token total. -/
structure MergeSt where
  chunks : List String
  current_parts : List String
  current_tokens : Nat
deriving Repr

/-- The inner sentence loop body of _merge_paragraphs_into_chunks, used for
paragraphs above the chunk budget: flush the buffer (joined with spaces)
when the sentence would overflow it, seed the next buffer with the overlap
tail, then append the sentence. -/
def mergeSentStep (ct : String → Nat) (chunk_size overlap : Nat)
    (st : MergeSt) (sent : String) : MergeSt :=
  let stoks := ct sent
  let st1 :=
    if st.current_tokens + stoks > chunk_size ∧ st.current_parts ≠ [] then
      let ovl := get_overlap_parts ct st.current_parts overlap
      { chunks := st.chunks ++ [String.intercalate " " st.current_parts]
        current_parts := ovl
        current_tokens := (ovl.map ct).sum }
    else st
  { st1 with
    current_parts := st1.current_parts ++ [sent]
    current_tokens := st1.current_tokens + stoks }

/-- The outer paragraph loop body of _merge_paragraphs_into_chunks: an
oversized paragraph first flushes the buffer (joined with double newlines)
and is then consumed sentence by sentence; a normal paragraph flushes the
buffer only when it would overflow it, seeding the overlap tail, and is
appended whole. -/
def mergeParaStep (ct : String → Nat) (chunk_size overlap : Nat)
    (st : MergeSt) (para : String) : MergeSt :=
  let ptoks := ct para
  if ptoks > chunk_size then
    let st1 :=
      if st.current_parts ≠ [] then
        { chunks := st.chunks ++ [String.intercalate "\n\n" st.current_parts]
          current_parts := []
          current_tokens := 0 }
      else st
    (splitSentences para).foldl (mergeSentStep ct chunk_size overlap) st1
  else
    let st1 :=
      if st.current_tokens + ptoks > chunk_size ∧ st.current_parts ≠ [] then
        let ovl := get_overlap_parts ct st.current_parts overlap
        { chunks := st.chunks ++ [String.intercalate "\n\n" st.current_parts]
          current_parts := ovl
          current_tokens := (ovl.map ct).sum }
      else st
    { st1 with
      current_parts := st1.current_parts ++ [para]
      current_tokens := st1.current_tokens + ptoks }

/-- chunking_service._merge_paragraphs_into_chunks. -/
def merge_paragraphs_into_chunks (ct : String → Nat) (paragraphs : List String)
    (chunk_size overlap : Nat) : List String :=
  if paragraphs.isEmpty then []
  else
    let fin := paragraphs.foldl (mergeParaStep ct chunk_size overlap)
      { chunks := [], current_parts := [], current_tokens := 0 }
    if fin.current_parts ≠ [] then
      fin.chunks ++ [String.intercalate "\n\n" fin.current_parts]
    else fin.chunks

/-- The optional bracketed title marker prepended to every chunk text
(f-string of chunk_paper; a missing or empty title yields no marker). -/
def chunkTitleMark (title : Option String) : String :=
  match title with
  | some t => if t = "" then "" else "[" ++ t ++ "] "
  | none => ""

/-- The chunks of a text that survive the minimum-token filter of
chunk_paper: paragraphs split, merged into chunks, tiny chunks dropped. -/
def chunk_kept (ct : String → Nat) (full_text : String) : List String :=
  (merge_paragraphs_into_chunks ct (split_into_paragraphs ct full_text)
    CHUNK_SIZE_TOKENS CHUNK_OVERLAP_TOKENS).filter
    (fun c => decide (MIN_CHUNK_TOKENS ≤ ct c))

/-- chunking_service.chunk_paper: guard on short texts, split into
paragraphs, merge into chunks, drop chunks under the minimum token floor,
and number the survivors 0, 1, ... with the optional bracketed title
prepended to each chunk text. -/
def chunk_paper (ct : String → Nat) (full_text : String) (paper_id : String)
    (title : Option String) : List ChunkRec :=
  if full_text = "" ∨ ct full_text < MIN_CHUNK_TOKENS then []
  else if (chunk_kept ct full_text).isEmpty then []
  else
    (chunk_kept ct full_text).enum.map (fun ic =>
      { paper_id := paper_id, chunk_index := ic.1
        chunk_text := chunkTitleMark title ++ ic.2 })

/-- Boolean test that a record carries the given canonical id. -/
def idHit (c : String) (q : PaperRec) : Bool := decide (q.arxiv_id = c)

/-- The ask.py merge fold over a list of records, from a given state. -/
def mergeGo (st : List String × List PaperRec) (l : List PaperRec) :
    List String × List PaperRec :=
  l.foldl mergeStep st

/-- The store component of the feed-saving loop (the success counter
dropped). -/
def saveStep (s : List FeedRec) (r : FeedRec) : List FeedRec :=
  match insert_feed_item s r with
  | Except.ok s2 => s2
  | Except.error _ => s

/-- The store component of the feed-saving loop (the counter dropped). -/
def saveStore (store : List FeedRec) (records : List FeedRec) :
    List FeedRec :=
  records.foldl saveStep store

theorem mergeContext_eq_mergeGo (t v : List PaperRec) :
    merge_context t v = (mergeGo (mergeGo ([], []) t) v).2 := by
  unfold merge_context mergeGo
  rw [List.foldl_append]

theorem mergeStep_seen (st : List String × List PaperRec) (p : PaperRec)
    (x : String) :
    x ∈ (mergeStep st p).1 ↔ x ∈ st.1 ∨ x = p.arxiv_id := by
  unfold mergeStep
  split
  · rename_i h
    constructor
    · exact fun hx => Or.inl hx
    · rintro (hx | rfl)
      · exact hx
      · exact h
  · simp only [List.mem_cons]
    tauto

theorem mergeGo_seen (l : List PaperRec) :
    ∀ st x, x ∈ (mergeGo st l).1 ↔ x ∈ st.1 ∨ ∃ p ∈ l, p.arxiv_id = x := by
  induction l with
  | nil => intro st x; simp [mergeGo]
  | cons p rest ih =>
    intro st x
    have : mergeGo st (p :: rest) = mergeGo (mergeStep st p) rest := rfl
    rw [this, ih, mergeStep_seen]
    constructor
    · rintro ((hx | rfl) | ⟨q, hq, rfl⟩)
      · exact Or.inl hx
      · exact Or.inr ⟨p, List.mem_cons_self p rest, rfl⟩
      · exact Or.inr ⟨q, List.mem_cons_of_mem p hq, rfl⟩
    · rintro (hx | ⟨q, hq, rfl⟩)
      · exact Or.inl (Or.inl hx)
      · rcases List.mem_cons.mp hq with rfl | hq2
        · exact Or.inl (Or.inr rfl)
        · exact Or.inr ⟨q, hq2, rfl⟩

theorem mergeGo_no_id_after (c : String) (l : List PaperRec) :
    ∀ st, c ∈ st.1 →
      ∃ ex, (mergeGo st l).2 = st.2 ++ ex ∧ ∀ q ∈ ex, q.arxiv_id ≠ c := by
  induction l with
  | nil => intro st _; exact ⟨[], by simp [mergeGo], by simp⟩
  | cons p rest ih =>
    intro st hc
    have hstep : mergeGo st (p :: rest) = mergeGo (mergeStep st p) rest := rfl
    rw [hstep]
    unfold mergeStep
    split
    · exact ih st hc
    · rename_i hp
      have hpc : p.arxiv_id ≠ c := fun h => hp (h ▸ hc)
      obtain ⟨ex, hex, hall⟩ := ih (p.arxiv_id :: st.1, st.2 ++ [p])
        (List.mem_cons_of_mem _ hc)
      refine ⟨p :: ex, ?_, ?_⟩
      · simpa [List.append_assoc] using hex
      · intro q hq
        rcases List.mem_cons.mp hq with rfl | hq2
        · exact hpc
        · exact hall q hq2

theorem mergeGo_find_first (c : String) (l : List PaperRec) :
    ∀ st, c ∉ st.1 → st.2.find? (idHit c) = none →
      (∃ p ∈ l, p.arxiv_id = c) →
      (mergeGo st l).2.find? (idHit c) = l.find? (idHit c) ∧
        (mergeGo st l).2.countP (idHit c) = 1 := by
  induction l with
  | nil => rintro st _ _ ⟨p, hp, _⟩; exact absurd hp (List.not_mem_nil p)
  | cons p rest ih =>
    intro st hc hfind hex
    have hstep : mergeGo st (p :: rest) = mergeGo (mergeStep st p) rest := rfl
    rw [hstep]
    by_cases hpc : p.arxiv_id = c
    · have hkeep : mergeStep st p = (p.arxiv_id :: st.1, st.2 ++ [p]) := by
        unfold mergeStep
        rw [if_neg (hpc ▸ hc)]
      rw [hkeep]
      obtain ⟨ex, hex2, hall⟩ := mergeGo_no_id_after c rest
        (p.arxiv_id :: st.1, st.2 ++ [p]) (by simp [hpc])
      have hfp : idHit c p = true := by simp [idHit, hpc]
      have hexnone : ex.find? (idHit c) = none := by
        rw [List.find?_eq_none]
        intro q hq
        simp [idHit, hall q hq]
      have hexcnt : ex.countP (idHit c) = 0 := by
        rw [List.countP_eq_zero]
        intro q hq
        simp [idHit, hall q hq]
      constructor
      · simp only [hex2, List.append_assoc, List.find?_append, hfind,
          Option.none_or, List.find?_cons, hfp]
        simp [List.find?_cons, hfp]
      · have hcnt0 : st.2.countP (idHit c) = 0 := by
          rw [List.countP_eq_zero]
          intro q hq
          cases hfq : idHit c q with
          | false => simp
          | true => exact absurd (List.find?_eq_none.mp hfind q hq hfq) (by simp)
        simp [hex2, List.countP_append, hcnt0, hexcnt, List.countP_cons, hfp]
    · have hfp : idHit c p = false := by simp [idHit, hpc]
      have hrest : ∃ q ∈ rest, q.arxiv_id = c := by
        rcases hex with ⟨q, hq, hqc⟩
        rcases List.mem_cons.mp hq with rfl | hq2
        · exact absurd hqc hpc
        · exact ⟨q, hq2, hqc⟩
      have hgoal :
          (mergeGo (mergeStep st p) rest).2.find? (idHit c) =
            rest.find? (idHit c) ∧
          (mergeGo (mergeStep st p) rest).2.countP (idHit c) = 1 := by
        unfold mergeStep
        split
        · exact ih st hc hfind hrest
        · refine ih (p.arxiv_id :: st.1, st.2 ++ [p]) ?_ ?_ hrest
          · intro hmem
            rcases List.mem_cons.mp hmem with h | h
            · exact hpc h.symm
            · exact hc h
          · simp [List.find?_append, hfind, List.find?_cons, hfp]
      rw [hgoal.1, hgoal.2]
      simp [List.find?_cons, hfp]

theorem find_append_of_some {α : Type} (l1 l2 : List α) (p : α → Bool)
    (x : α) (h : l1.find? p = some x) : (l1 ++ l2).find? p = some x := by
  rw [List.find?_append, h]
  rfl

theorem findIdx_append_of_some {α : Type} (l1 l2 : List α) (p : α → Bool)
    (h : (l1.find? p).isSome) : (l1 ++ l2).findIdx p = l1.findIdx p := by
  induction l1 with
  | nil => simp at h
  | cons a l ih =>
    cases hpa : p a with
    | true => simp [List.findIdx_cons, hpa]
    | false =>
      have h2 : (l.find? p).isSome := by
        simpa [List.find?_cons, hpa] using h
      simp [List.findIdx_cons, hpa, ih h2]

theorem find_isSome_of_mem {α : Type} (l : List α) (p : α → Bool) (x : α)
    (hx : x ∈ l) (hp : p x = true) : (l.find? p).isSome := by
  cases h : l.find? p with
  | some y => rfl
  | none => exact absurd (List.find?_eq_none.mp h x hx hp) (by simp)

/-- C9: in the retrieval merge of ask.py, when a title match and a vector
result carry the same canonical id, the merged context holds exactly one
entry for that id; the entry is the first title match with the id, and it
sits at the rank it has among the deduplicated title matches alone (title
matches come first, then vector results, first occurrence winning). -/
theorem c9_merge_title_rank (t v : List PaperRec) (c : String)
    (ht : ∃ p ∈ t, p.arxiv_id = c) (hv : ∃ p ∈ v, p.arxiv_id = c) :
    (merge_context t v).countP (idHit c) = 1 ∧
    (merge_context t v).find? (idHit c) = t.find? (idHit c) ∧
    (merge_context t v).findIdx (idHit c) =
      (merge_context t []).findIdx (idHit c) := by
  have hA := mergeGo_find_first c t ([], []) (by simp) (by simp) ht
  have hseen : c ∈ (mergeGo ([], []) t).1 :=
    (mergeGo_seen t ([], []) c).mpr (Or.inr ht)
  obtain ⟨ex, hex, hall⟩ := mergeGo_no_id_after c v (mergeGo ([], []) t) hseen
  have hmt : merge_context t v = (mergeGo ([], []) t).2 ++ ex := by
    rw [mergeContext_eq_mergeGo, hex]
  have hm0 : merge_context t [] = (mergeGo ([], []) t).2 := by
    rw [mergeContext_eq_mergeGo]
    rfl
  have hAfind : ((mergeGo ([], []) t).2.find? (idHit c)).isSome := by
    rw [hA.1]
    obtain ⟨p, hp, hpc⟩ := ht
    exact find_isSome_of_mem t (idHit c) p hp (by simp [idHit, hpc])
  have hexcnt : ex.countP (idHit c) = 0 := by
    rw [List.countP_eq_zero]
    intro q hq
    simp [idHit, hall q hq]
  refine ⟨?_, ?_, ?_⟩
  · rw [hmt, List.countP_append, hA.2, hexcnt]
  · obtain ⟨x, hx⟩ := Option.isSome_iff_exists.mp hAfind
    rw [hmt, find_append_of_some _ ex (idHit c) x hx, ← hx, hA.1]
  · rw [hmt, hm0, findIdx_append_of_some _ ex (idHit c) hAfind]

/-- C9 witness: a concrete title-match list and vector list sharing the
canonical id A: the merged context keeps one entry for A, equal to the
title-match copy, at the title-match rank. -/
theorem c9_merge_title_rank_witness :
    (∃ p ∈ [({ arxiv_id := "A", title := "T one" } : PaperRec)],
      p.arxiv_id = "A") ∧
    (∃ p ∈ [({ arxiv_id := "A", title := "T dup" } : PaperRec),
            ({ arxiv_id := "B", title := "T two" } : PaperRec)],
      p.arxiv_id = "A") ∧
    ((merge_context [{ arxiv_id := "A", title := "T one" }]
        [{ arxiv_id := "A", title := "T dup" },
         { arxiv_id := "B", title := "T two" }]).countP (idHit "A") = 1 ∧
     (merge_context [{ arxiv_id := "A", title := "T one" }]
        [{ arxiv_id := "A", title := "T dup" },
         { arxiv_id := "B", title := "T two" }]).find? (idHit "A") =
       ([({ arxiv_id := "A", title := "T one" } : PaperRec)]).find?
         (idHit "A") ∧
     (merge_context [{ arxiv_id := "A", title := "T one" }]
        [{ arxiv_id := "A", title := "T dup" },
         { arxiv_id := "B", title := "T two" }]).findIdx (idHit "A") =
       (merge_context [{ arxiv_id := "A", title := "T one" }] []).findIdx
         (idHit "A")) :=
  ⟨by decide, by decide,
   c9_merge_title_rank _ _ "A" (by decide) (by decide)⟩

theorem dedupGo_cons (st : DedupSt) (p : PaperRec) (l : List PaperRec) :
    dedupGo st (p :: l) = dedupGo (dedupStep st p) l := rfl

theorem dedup_singleton (l : List PaperRec) :
    deduplicate_papers [l] = (dedupGo dedupInit l).merged := rfl

theorem dedup_pair (t u : List PaperRec) :
    deduplicate_papers [t, u] = (dedupGo dedupInit (t ++ u)).merged := by
  unfold deduplicate_papers dedupGo
  simp [List.foldl_append]

theorem dedupGo_ids_sub (l : List PaperRec) :
    ∀ st x, x ∈ (dedupGo st l).ids →
      x ∈ st.ids ∨ ∃ r ∈ l, r.arxiv_id = x := by
  induction l with
  | nil => intro st x hx; exact Or.inl hx
  | cons p rest ih =>
    intro st x hx
    rw [dedupGo_cons] at hx
    rcases ih (dedupStep st p) x hx with hx2 | ⟨r, hr, hrx⟩
    · unfold dedupStep at hx2
      split at hx2
      · exact Or.inl hx2
      · rcases List.mem_cons.mp hx2 with rfl | hx3
        · exact Or.inr ⟨p, List.mem_cons_self p rest, rfl⟩
        · exact Or.inl hx3
    · exact Or.inr ⟨r, List.mem_cons_of_mem p hr, hrx⟩

theorem dedupGo_ids_mono (l : List PaperRec) :
    ∀ st x, x ∈ st.ids → x ∈ (dedupGo st l).ids := by
  induction l with
  | nil => intro st x hx; exact hx
  | cons p rest ih =>
    intro st x hx
    rw [dedupGo_cons]
    refine ih (dedupStep st p) x ?_
    unfold dedupStep
    split
    · exact hx
    · exact List.mem_cons_of_mem _ hx

theorem dedupGo_titles_sub (l : List PaperRec) :
    ∀ st x, x ∈ (dedupGo st l).titles →
      x ∈ st.titles ∨ ((∃ r ∈ l, titleKey r = x) ∧ x ≠ "") := by
  induction l with
  | nil => intro st x hx; exact Or.inl hx
  | cons p rest ih =>
    intro st x hx
    rw [dedupGo_cons] at hx
    rcases ih (dedupStep st p) x hx with hx2 | ⟨⟨r, hr, hrx⟩, hne⟩
    · unfold dedupStep at hx2
      split at hx2
      · exact Or.inl hx2
      · split at hx2
        · exact Or.inl hx2
        · rcases List.mem_cons.mp hx2 with rfl | hx3
          · rename_i hne2
            exact Or.inr ⟨⟨p, List.mem_cons_self p rest, rfl⟩, hne2⟩
          · exact Or.inl hx3
    · exact Or.inr ⟨⟨r, List.mem_cons_of_mem p hr, hrx⟩, hne⟩

theorem dedupGo_merged_extra (l : List PaperRec) :
    ∀ st, ∃ ex, (dedupGo st l).merged = st.merged ++ ex ∧
      ∀ q ∈ ex, q ∈ l := by
  induction l with
  | nil => intro st; exact ⟨[], by simp [dedupGo], by simp⟩
  | cons p rest ih =>
    intro st
    rw [dedupGo_cons]
    unfold dedupStep
    split
    · obtain ⟨ex, hex, hall⟩ := ih st
      exact ⟨ex, hex, fun q hq => List.mem_cons_of_mem p (hall q hq)⟩
    · obtain ⟨ex, hex, hall⟩ := ih
        { ids := p.arxiv_id :: st.ids
          titles := if titleKey p = "" then st.titles
            else titleKey p :: st.titles
          merged := st.merged ++ [p] }
      refine ⟨p :: ex, ?_, ?_⟩
      · rw [hex]
        simp
      · intro q hq
        rcases List.mem_cons.mp hq with rfl | hq2
        · exact List.mem_cons_self q rest
        · exact List.mem_cons_of_mem p (hall q hq2)

theorem dedupGo_no_id_after (c : String) (l : List PaperRec) :
    ∀ st, c ∈ st.ids →
      ∃ ex, (dedupGo st l).merged = st.merged ++ ex ∧
        ∀ q ∈ ex, q.arxiv_id ≠ c := by
  induction l with
  | nil => intro st _; exact ⟨[], by simp [dedupGo], by simp⟩
  | cons p rest ih =>
    intro st hc
    rw [dedupGo_cons]
    unfold dedupStep
    split
    · exact ih st hc
    · rename_i hcond
      have hpc : p.arxiv_id ≠ c := by
        intro h
        exact hcond (Or.inl (h ▸ hc))
      obtain ⟨ex, hex, hall⟩ := ih
        { ids := p.arxiv_id :: st.ids
          titles := if titleKey p = "" then st.titles
            else titleKey p :: st.titles
          merged := st.merged ++ [p] }
        (List.mem_cons_of_mem _ hc)
      refine ⟨p :: ex, ?_, ?_⟩
      · simpa [List.append_assoc] using hex
      · intro q hq
        rcases List.mem_cons.mp hq with rfl | hq2
        · exact hpc
        · exact hall q hq2

/-- C4 counterexample: both input lists contain canonical id b, yet the
merged output's only entry for b is the second-seen copy, not the first:
the first b-candidate is discarded by a title-key collision with an
earlier, different-id candidate, and a later b-candidate with a fresh
title is kept instead.  This refutes the claim that the entry for a shared
canonical id always equals the first-seen copy. -/
theorem c4_first_seen_cex :
    deduplicate_papers
        [[{ arxiv_id := "a", title := "t" }, { arxiv_id := "b", title := "t" }],
         [{ arxiv_id := "b", title := "u" }]] =
      [{ arxiv_id := "a", title := "t" }, { arxiv_id := "b", title := "u" }] ∧
    (deduplicate_papers
        [[{ arxiv_id := "a", title := "t" }, { arxiv_id := "b", title := "t" }],
         [{ arxiv_id := "b", title := "u" }]]).find? (idHit "b") ≠
      some { arxiv_id := "b", title := "t" } := by
  decide

/-- C4 (amended): for two candidate lists both containing canonical id c,
the merge returns exactly one entry for c, equal to the first-seen copy,
PROVIDED that first copy is itself retained — no earlier candidate carries
id c, and none collides with its title key (automatic when its title key
is empty, since empty keys are never recorded). -/
theorem c4_dedup_first_seen (t u xs ys : List PaperRec) (p : PaperRec)
    (c : String)
    (hsplit : t ++ u = xs ++ p :: ys)
    (hp : p.arxiv_id = c)
    (hfirst : ∀ r ∈ xs, r.arxiv_id ≠ c)
    (htitle : titleKey p = "" ∨ ∀ r ∈ xs, titleKey r ≠ titleKey p) :
    (deduplicate_papers [t, u]).countP (idHit c) = 1 ∧
    (deduplicate_papers [t, u]).find? (idHit c) = some p := by
  rw [dedup_pair, hsplit]
  have hgo : dedupGo dedupInit (xs ++ p :: ys) =
      dedupGo (dedupStep (dedupGo dedupInit xs) p) ys := by
    unfold dedupGo
    rw [List.foldl_append]
    rfl
  have hcid : c ∉ (dedupGo dedupInit xs).ids := by
    intro hmem
    rcases dedupGo_ids_sub xs dedupInit c hmem with h | ⟨r, hr, hrc⟩
    · simp [dedupInit] at h
    · exact hfirst r hr hrc
  have htk : titleKey p ∉ (dedupGo dedupInit xs).titles := by
    intro hmem
    rcases dedupGo_titles_sub xs dedupInit (titleKey p) hmem with
      h | ⟨⟨r, hr, hrk⟩, hne⟩
    · simp [dedupInit] at h
    · rcases htitle with h0 | hall
      · exact hne h0
      · exact hall r hr hrk
  have hkeep : dedupStep (dedupGo dedupInit xs) p =
      { ids := p.arxiv_id :: (dedupGo dedupInit xs).ids
        titles := if titleKey p = "" then (dedupGo dedupInit xs).titles
          else titleKey p :: (dedupGo dedupInit xs).titles
        merged := (dedupGo dedupInit xs).merged ++ [p] } := by
    unfold dedupStep
    rw [if_neg]
    rintro (h | h)
    · exact hcid (hp ▸ h)
    · exact htk h
  have hmnoc : ∀ r ∈ (dedupGo dedupInit xs).merged, idHit c r = false := by
    intro r hr
    obtain ⟨ex0, hex0, hall0⟩ := dedupGo_merged_extra xs dedupInit
    rw [hex0] at hr
    simp only [dedupInit, List.nil_append] at hr
    simp [idHit, hfirst r (hall0 r hr)]
  have hcin : c ∈ (dedupStep (dedupGo dedupInit xs) p).ids := by
    rw [hkeep, ← hp]
    exact List.mem_cons_self _ _
  obtain ⟨ex, hex, hall⟩ :=
    dedupGo_no_id_after c ys (dedupStep (dedupGo dedupInit xs) p) hcin
  have hfinal : (dedupGo dedupInit (xs ++ p :: ys)).merged =
      ((dedupGo dedupInit xs).merged ++ [p]) ++ ex := by
    rw [hgo, hex, hkeep]
  have hhit : idHit c p = true := by simp [idHit, hp]
  have hcnt0 : (dedupGo dedupInit xs).merged.countP (idHit c) = 0 :=
    List.countP_eq_zero.mpr (fun r hr => by simp [hmnoc r hr])
  have hexcnt : ex.countP (idHit c) = 0 :=
    List.countP_eq_zero.mpr (fun r hr => by simp [idHit, hall r hr])
  constructor
  · rw [hfinal, List.countP_append, List.countP_append, hcnt0, hexcnt]
    simp [List.countP_cons, hhit]
  · have hmfind : (dedupGo dedupInit xs).merged.find? (idHit c) = none :=
      List.find?_eq_none.mpr (fun r hr hhr => by
        rw [hmnoc r hr] at hhr
        exact Bool.false_ne_true hhr)
    rw [hfinal, List.find?_append, List.find?_append, hmfind]
    simp [List.find?_cons, hhit]

/-- C4 witness: two singleton lists sharing canonical id b with distinct
titles; the merge keeps exactly the first copy. -/
theorem c4_dedup_first_seen_witness :
    (([{ arxiv_id := "b", title := "beta title" }] ++
        [{ arxiv_id := "b", title := "gamma title" }] : List PaperRec) =
      ([] : List PaperRec) ++
        ({ arxiv_id := "b", title := "beta title" } : PaperRec) ::
        [({ arxiv_id := "b", title := "gamma title" } : PaperRec)]) ∧
    ((deduplicate_papers
        [[{ arxiv_id := "b", title := "beta title" }],
         [{ arxiv_id := "b", title := "gamma title" }]]).countP
      (idHit "b") = 1 ∧
     (deduplicate_papers
        [[{ arxiv_id := "b", title := "beta title" }],
         [{ arxiv_id := "b", title := "gamma title" }]]).find?
      (idHit "b") = some { arxiv_id := "b", title := "beta title" }) :=
  ⟨by decide,
   c4_dedup_first_seen [{ arxiv_id := "b", title := "beta title" }]
     [{ arxiv_id := "b", title := "gamma title" }] []
     [{ arxiv_id := "b", title := "gamma title" }]
     { arxiv_id := "b", title := "beta title" } "b"
     (by decide) (by decide) (by decide) (Or.inr (by decide))⟩

/-- C5 counterexample: two candidates with distinct canonical ids whose
titles differ only in internal whitespace are NOT deduplicated — the title
key lower-cases and strips only leading and trailing whitespace; it does
not collapse internal whitespace as the claim states. -/
theorem c5_whitespace_cex :
    deduplicate_papers
        [[{ arxiv_id := "x", title := "deep  learning" },
          { arxiv_id := "y", title := "deep learning" }]] =
      [{ arxiv_id := "x", title := "deep  learning" },
       { arxiv_id := "y", title := "deep learning" }] := by
  decide

/-- C5 (amended): the normalized title key is the lower-cased,
end-stripped (not whitespace-collapsed) first 100 characters; a candidate
whose non-empty key equals that of an already retained candidate is
dropped, so two candidates with the same key are merged to one entry. -/
theorem c5_title_key_drop (p q : PaperRec)
    (hk : titleKey q = titleKey p) (hne : titleKey p ≠ "") :
    deduplicate_papers [[p, q]] = [p] := by
  rw [dedup_singleton]
  show (dedupStep (dedupStep dedupInit p) q).merged = [p]
  have h1 : dedupStep dedupInit p =
      { ids := [p.arxiv_id], titles := [titleKey p], merged := [p] } := by
    unfold dedupStep dedupInit
    rw [if_neg (by simp), if_neg hne]
    simp
  rw [h1]
  unfold dedupStep
  rw [if_pos (Or.inr (by rw [hk]; exact List.mem_singleton.mpr rfl))]

/-- C5 witness: titles equal after lower-casing and end-stripping are
merged to the first entry. -/
theorem c5_title_key_drop_witness :
    (titleKey { arxiv_id := "y", title := "  deep learning " } =
      titleKey { arxiv_id := "x", title := "Deep Learning" }) ∧
    (titleKey ({ arxiv_id := "x", title := "Deep Learning" } : PaperRec) ≠ "") ∧
    deduplicate_papers
        [[{ arxiv_id := "x", title := "Deep Learning" },
          { arxiv_id := "y", title := "  deep learning " }]] =
      [{ arxiv_id := "x", title := "Deep Learning" }] :=
  ⟨by decide, by decide, c5_title_key_drop _ _ (by decide) (by decide)⟩

/-- C10 counterexample: the first empty-id candidate is dropped by a title
collision, so the empty id never enters the seen-id set, and a later
empty-id candidate with a fresh title is retained — refuting the claim
that every empty-id candidate after the first is dropped. -/
theorem c10_empty_id_cex :
    deduplicate_papers
        [[{ arxiv_id := "a", title := "t" },
          { arxiv_id := "", title := "t" },
          { arxiv_id := "", title := "u" }]] =
      [{ arxiv_id := "a", title := "t" },
       { arxiv_id := "", title := "u" }] ∧
    ({ arxiv_id := "", title := "u" } : PaperRec) ∈
      deduplicate_papers
        [[{ arxiv_id := "a", title := "t" },
          { arxiv_id := "", title := "t" },
          { arxiv_id := "", title := "u" }]] := by
  decide

/-- C10 (amended): once an empty-id candidate has been RETAINED (the empty
id is then in the seen-id set), any later empty-id candidate is dropped
regardless of its title; and an empty title key is never recorded, so a
candidate with an empty title key is retained whenever its id is unseen. -/
theorem c10_empty_id_seen (xs ys : List PaperRec) (q p : PaperRec)
    (hq : q.arxiv_id = "")
    (hseen : "" ∈ (dedupGo dedupInit xs).ids)
    (hpt : titleKey p = "")
    (hpid : p.arxiv_id ∉ (dedupGo dedupInit xs).ids) :
    deduplicate_papers [xs ++ q :: ys] = deduplicate_papers [xs ++ ys] ∧
    p ∈ deduplicate_papers [xs ++ p :: ys] := by
  constructor
  · rw [dedup_singleton, dedup_singleton]
    have h1 : dedupGo dedupInit (xs ++ q :: ys) =
        dedupGo (dedupStep (dedupGo dedupInit xs) q) ys := by
      unfold dedupGo
      rw [List.foldl_append]
      rfl
    have h2 : dedupGo dedupInit (xs ++ ys) =
        dedupGo (dedupGo dedupInit xs) ys := by
      unfold dedupGo
      rw [List.foldl_append]
    have hdrop : dedupStep (dedupGo dedupInit xs) q = dedupGo dedupInit xs := by
      unfold dedupStep
      rw [if_pos (Or.inl (by rw [hq]; exact hseen))]
    rw [h1, hdrop, h2]
  · rw [dedup_singleton]
    have h1 : dedupGo dedupInit (xs ++ p :: ys) =
        dedupGo (dedupStep (dedupGo dedupInit xs) p) ys := by
      unfold dedupGo
      rw [List.foldl_append]
      rfl
    have hempty : "" ∉ (dedupGo dedupInit xs).titles := by
      intro hmem
      rcases dedupGo_titles_sub xs dedupInit "" hmem with h | ⟨_, hne⟩
      · simp [dedupInit] at h
      · exact hne rfl
    have hkeep : dedupStep (dedupGo dedupInit xs) p =
        { ids := p.arxiv_id :: (dedupGo dedupInit xs).ids
          titles := if titleKey p = "" then (dedupGo dedupInit xs).titles
            else titleKey p :: (dedupGo dedupInit xs).titles
          merged := (dedupGo dedupInit xs).merged ++ [p] } := by
      unfold dedupStep
      rw [if_neg]
      rintro (h | h)
      · exact hpid h
      · rw [hpt] at h
        exact hempty h
    rw [h1]
    obtain ⟨ex, hex, _⟩ :=
      dedupGo_merged_extra ys (dedupStep (dedupGo dedupInit xs) p)
    rw [hex, hkeep]
    simp

/-- C10 witness: after a retained empty-id candidate, a second empty-id
candidate with a different title is dropped, and a fresh-id candidate with
an empty title is retained. -/
theorem c10_empty_id_seen_witness :
    (({ arxiv_id := "", title := "beta" } : PaperRec).arxiv_id = "") ∧
    ("" ∈ (dedupGo dedupInit [{ arxiv_id := "", title := "alpha" }]).ids) ∧
    (titleKey ({ arxiv_id := "z", title := "" } : PaperRec) = "") ∧
    (({ arxiv_id := "z", title := "" } : PaperRec).arxiv_id ∉
      (dedupGo dedupInit [{ arxiv_id := "", title := "alpha" }]).ids) ∧
    (deduplicate_papers
        [[{ arxiv_id := "", title := "alpha" }] ++
          ({ arxiv_id := "", title := "beta" } : PaperRec) :: []] =
      deduplicate_papers [[{ arxiv_id := "", title := "alpha" }] ++ []] ∧
     ({ arxiv_id := "z", title := "" } : PaperRec) ∈
      deduplicate_papers
        [[{ arxiv_id := "", title := "alpha" }] ++
          ({ arxiv_id := "z", title := "" } : PaperRec) :: []]) :=
  ⟨by decide, by decide, by decide, by decide,
   c10_empty_id_seen [{ arxiv_id := "", title := "alpha" }] [] _ _
     (by decide) (by decide) (by decide) (by decide)⟩

/-- C1 counterexample: with the paper titled Attention Is All You Need in
the user feed, the title-match pass on the question named by the claim
returns NO papers — after stop-word and length filtering only the tokens
attention and need remain on both sides, so the overlap is 2, below the
required minimum of 3 (the ratio is 1.0). -/
theorem c1_title_match_cex :
    find_title_matches "explain attention is all you need to me"
      [{ arxiv_id := "1706.03762", title := "Attention Is All You Need" }] =
      [] := by
  decide

/-- C1 (amended): for the feed containing Attention Is All You Need, the
title-match pass returns no papers on the question of the claim (the
significant-token overlap is exactly 2 — attention, need — failing the
overlap threshold of 3 even though the ratio threshold 0.4 is met), and it
also returns no papers on the unrelated question. -/
theorem c1_title_match_threshold :
    find_title_matches "explain attention is all you need to me"
      [{ arxiv_id := "1706.03762", title := "Attention Is All You Need" }] =
      [] ∧
    find_title_matches "what\x27s 2+2"
      [{ arxiv_id := "1706.03762", title := "Attention Is All You Need" }] =
      [] ∧
    wordSet "Attention Is All You Need" = ["attention", "need"] ∧
    ((wordSet "explain attention is all you need to me").filter
      (fun w => (wordSet "Attention Is All You Need").contains w)).length =
      2 := by
  decide

theorem get_embeddings_batch_fail (e : String) (texts : List String) :
    get_embeddings_batch (fun _ => Except.error e) texts =
      texts.map (fun _ => []) := by
  unfold get_embeddings_batch
  split
  · rename_i h
    rw [List.isEmpty_iff.mp h]
    rfl
  · rfl

theorem step4_fold_const_nil (sc : SummCall) (fts : List (String × String)) :
    ∀ (batch : List (String × PaperRec)) (table : List PaperRec),
      (batch.zip (batch.map (fun _ => ([] : List Int)))).foldl
          (fun tb pr => tb ++ [step4_record sc fts pr]) table =
        table ++ batch.map (fun pr => step4_record sc fts (pr, [])) := by
  intro batch
  induction batch with
  | nil => intro table; simp
  | cons pr rest ih =>
    intro table
    simp only [List.map_cons, List.zip_cons_cons, List.foldl_cons]
    rw [ih]
    simp

/-- C2 counterexample: with both the embedding call and the summarization
call failing, the batch-processing step still inserts the paper into the
papers store (with an empty vector and the placeholder summary) — the
failures are caught inside openai_service, so the paper IS persisted,
contrary to the claim that it is skipped and retried later. -/
theorem c2_enrichment_failure_cex :
    step4_embed_batch (fun _ => Except.error "api down")
      (fun _ => Except.error "api down") [] []
      [("2301.00001",
        { arxiv_id := "2301.00001", title := "T", abstract := "A" })] =
      [{ arxiv_id := "2301.00001", title := "T", abstract := "A",
         abstract_vector := [],
         summary := "Summary could not be generated." }] := by
  decide

/-- C2 (amended): when the embedding call and the summarization call fail
for a batch, every paper of the batch is nevertheless persisted — appended
to the papers store with an empty embedding vector and the placeholder
summary, its arxiv_id unchanged — so a future run will see it as already
persisted and will NOT retry its enrichment. -/
theorem c2_enrichment_failure_persists (e1 e2 : String)
    (fts : List (String × String)) (table : List PaperRec)
    (batch : List (String × PaperRec)) :
    step4_embed_batch (fun _ => Except.error e1) (fun _ => Except.error e2)
        fts table batch =
      table ++ batch.map (fun pr =>
        step4_record (fun _ => Except.error e2) fts (pr, [])) ∧
    ∀ pr ∈ batch,
      (step4_record (fun _ => Except.error e2) fts (pr, [])).arxiv_id =
        pr.2.arxiv_id ∧
      (step4_record (fun _ => Except.error e2) fts (pr, [])).abstract_vector =
        [] ∧
      (step4_record (fun _ => Except.error e2) fts (pr, [])).summary =
        "Summary could not be generated." := by
  constructor
  · unfold step4_embed_batch
    rw [get_embeddings_batch_fail]
    have hmm : (batch.map (fun pr => pr.2.title ++ ". " ++ pr.2.abstract)).map
        (fun _ => ([] : List Int)) = batch.map (fun _ => ([] : List Int)) := by
      rw [List.map_map]
      rfl
    rw [hmm, step4_fold_const_nil]
  · intro pr _
    simp only [step4_record, generate_paper_summary]
    split
    · exact ⟨rfl, rfl, trivial⟩
    · exact ⟨rfl, rfl, trivial⟩

/-- C2 witness: the amended theorem applied to a concrete one-paper batch
with failing calls. -/
theorem c2_enrichment_failure_persists_witness :
    (step4_embed_batch (fun _ => Except.error "down")
        (fun _ => Except.error "down") [] []
        [("2301.00002",
          { arxiv_id := "2301.00002", title := "U", abstract := "B" })] =
      [] ++ [("2301.00002",
          ({ arxiv_id := "2301.00002", title := "U", abstract := "B" }
            : PaperRec))].map (fun pr =>
        step4_record (fun _ => Except.error "down") [] (pr, []))) ∧
    ∀ pr ∈ [("2301.00002",
        ({ arxiv_id := "2301.00002", title := "U", abstract := "B" }
          : PaperRec))],
      (step4_record (fun _ => Except.error "down") [] (pr, [])).arxiv_id =
        pr.2.arxiv_id ∧
      (step4_record (fun _ => Except.error "down") [] (pr, [])).abstract_vector =
        [] ∧
      (step4_record (fun _ => Except.error "down") [] (pr, [])).summary =
        "Summary could not be generated." :=
  c2_enrichment_failure_persists "down" "down" [] []
    [("2301.00002", { arxiv_id := "2301.00002", title := "U", abstract := "B" })]

/-- C3 (amended): for every token counter, text, paper id and title, the
chunk_index values of the chunking result are exactly 0, 1, ..., n-1 in
order with no gaps.  (The concatenation half of the claim is refuted by
the counterexample: chunks under the minimum token floor are discarded, so
their text is absent from any concatenation of the results.) -/
theorem c3_chunk_index_contiguous (ct : String → Nat)
    (full_text paper_id : String) (title : Option String) :
    (chunk_paper ct full_text paper_id title).map (fun c => c.chunk_index) =
      List.range (chunk_paper ct full_text paper_id title).length := by
  unfold chunk_paper
  split
  · simp
  · split
    · simp
    · rw [List.map_map, List.length_map, List.enum_length]
      have hc : ((fun c => ChunkRec.chunk_index c) ∘ (fun ic =>
          ({ paper_id := paper_id, chunk_index := ic.1
             chunk_text := chunkTitleMark title ++ ic.2 } : ChunkRec))) =
          Prod.fst := rfl
      rw [hc, List.enum_map_fst]

/-- C3 counterexample: a three-paragraph text (fifty letters a, then b,
then c, under the character-budget token counter that assigns ten tokens
per character) chunks to a single chunk holding only the first two
paragraphs: the trailing buffer b, c falls below the fifty-token minimum
and is discarded, so the letter c of the source text appears in no chunk —
concatenating the chunks cannot reproduce the source text even modulo the
trailing overlap. -/
theorem c3_concat_cex :
    chunk_paper (fun s => 10 * s.length)
        (String.mk (List.replicate 50 'a') ++ "\n\nb\n\nc") "p1" none =
      [{ paper_id := "p1", chunk_index := 0
         chunk_text := String.mk (List.replicate 50 'a') ++ "\n\nb" }] ∧
    'c' ∈ (String.mk (List.replicate 50 'a') ++ "\n\nb\n\nc").toList ∧
    ∀ ch ∈ chunk_paper (fun s => 10 * s.length)
        (String.mk (List.replicate 50 'a') ++ "\n\nb\n\nc") "p1" none,
      'c' ∉ ch.chunk_text.toList := by
  decide

theorem build_feed_scores_get (uid : String) (pool : List PaperRec) (i : Nat)
    (p : PaperRec) (hget : pool.get? i = some p)
    (hns : p.rerank_score = none) :
    ((build_feed_records uid pool).map (fun f => f.relevance_score)).get? i =
      some (1 - (i : ℚ) / ((max pool.length 1 : Nat) : ℚ)) := by
  unfold build_feed_records
  rw [List.map_map, List.get?_map, List.get?_enum, hget]
  simp [hns]

/-- C6: for a user pool at or below TOP_MATCHES_PER_USER whose records
carry no injected rerank score (as pipeline records never do before
ranking), the ranking stage passes the pool through unchanged without
consulting the rerank client, the feed rows list the pool ids in the pool
order, and the relevance scores 1 - rank/len are strictly decreasing along
that order, so sorting the feed by relevance reproduces the original
candidate order. -/
theorem c6_small_pool_passthrough (client : Option RerankClient)
    (query uid : String) (pool : List PaperRec) (i j : Nat)
    (hlen : pool.length ≤ TOP_MATCHES_PER_USER)
    (hns : ∀ p ∈ pool, p.rerank_score = none)
    (hij : i < j) (hj : j < pool.length) :
    rank_stage client query pool = pool ∧
    (build_feed_records uid pool).map (fun f => f.paper_id) =
      pool.map (fun p => p.arxiv_id) ∧
    ∃ si sj : ℚ,
      ((build_feed_records uid pool).map
        (fun f => f.relevance_score)).get? i = some si ∧
      ((build_feed_records uid pool).map
        (fun f => f.relevance_score)).get? j = some sj ∧
      sj < si := by
  refine ⟨?_, ?_, ?_⟩
  · unfold rank_stage
    rw [if_neg (Nat.not_lt.mpr hlen)]
  · unfold build_feed_records
    rw [List.map_map]
    conv_rhs => rw [← List.enum_map_snd pool]
    rw [List.map_map]
    rfl
  · have hi : i < pool.length := Nat.lt_trans hij hj
    obtain ⟨pi, hgi⟩ : ∃ p, pool.get? i = some p :=
      ⟨pool.get ⟨i, hi⟩, List.get?_eq_get hi⟩
    obtain ⟨pj, hgj⟩ : ∃ p, pool.get? j = some p :=
      ⟨pool.get ⟨j, hj⟩, List.get?_eq_get hj⟩
    have hni : pi.rerank_score = none := hns pi (List.get?_mem hgi)
    have hnj : pj.rerank_score = none := hns pj (List.get?_mem hgj)
    refine ⟨_, _, build_feed_scores_get uid pool i pi hgi hni,
      build_feed_scores_get uid pool j pj hgj hnj, ?_⟩
    have hn : (0 : ℚ) < ((max pool.length 1 : Nat) : ℚ) := by
      have h1 : (1 : Nat) ≤ max pool.length 1 := Nat.le_max_right _ _
      exact_mod_cast Nat.lt_of_lt_of_le Nat.zero_lt_one h1
    apply sub_lt_sub_left
    rw [div_lt_div_iff_of_pos_right hn]
    exact_mod_cast hij

/-- C6 witness: a two-paper pool passes through unranked, keeps its order
in the feed rows, and the score of rank 1 is below the score of rank 0. -/
theorem c6_small_pool_passthrough_witness :
    (([({ arxiv_id := "p0" } : PaperRec), { arxiv_id := "p1" }]).length ≤
      TOP_MATCHES_PER_USER) ∧
    (∀ p ∈ [({ arxiv_id := "p0" } : PaperRec), { arxiv_id := "p1" }],
      p.rerank_score = none) ∧
    (rank_stage none "q" [{ arxiv_id := "p0" }, { arxiv_id := "p1" }] =
      [({ arxiv_id := "p0" } : PaperRec), { arxiv_id := "p1" }] ∧
     (build_feed_records "u"
        [{ arxiv_id := "p0" }, { arxiv_id := "p1" }]).map
        (fun f => f.paper_id) =
      ([({ arxiv_id := "p0" } : PaperRec), { arxiv_id := "p1" }]).map
        (fun p => p.arxiv_id) ∧
     ∃ si sj : ℚ,
      ((build_feed_records "u"
         [{ arxiv_id := "p0" }, { arxiv_id := "p1" }]).map
        (fun f => f.relevance_score)).get? 0 = some si ∧
      ((build_feed_records "u"
         [{ arxiv_id := "p0" }, { arxiv_id := "p1" }]).map
        (fun f => f.relevance_score)).get? 1 = some sj ∧
      sj < si) :=
  ⟨by decide, by decide,
   c6_small_pool_passthrough none "q" "u"
     [{ arxiv_id := "p0" }, { arxiv_id := "p1" }] 0 1
     (by decide) (by decide) (by decide) (by decide)⟩

/-- C7: for a non-empty paper list, a missing Cohere API key (no client)
or a raising rerank call both degrade rerank_papers to the input order
truncated to top_n; the failure is consumed inside the function, never
propagated (the function is total and returns the fallback value). -/
theorem c7_rerank_fallback (query : String) (papers : List PaperRec)
    (top_n : Nat) (call : RerankClient) (e : String)
    (hne : papers ≠ [])
    (hfail : ∀ q docs n, call q docs n = Except.error e) :
    rerank_papers none query papers top_n = papers.take top_n ∧
    rerank_papers (some call) query papers top_n = papers.take top_n := by
  have hemp : ¬ (papers.isEmpty = true) := by
    simp [List.isEmpty_iff, hne]
  constructor
  · unfold rerank_papers
    rw [if_neg hemp]
  · unfold rerank_papers
    rw [if_neg hemp]
    simp only [hfail]

/-- C7 witness: the fallback applied to a concrete singleton list with a
missing key and with a client that always raises. -/
theorem c7_rerank_fallback_witness :
    (([({ arxiv_id := "p1", title := "T1" } : PaperRec)]) ≠ []) ∧
    (rerank_papers none "q" [{ arxiv_id := "p1", title := "T1" }] 25 =
      ([({ arxiv_id := "p1", title := "T1" } : PaperRec)]).take 25 ∧
     rerank_papers (some (fun _ _ _ => Except.error "down")) "q"
        [{ arxiv_id := "p1", title := "T1" }] 25 =
      ([({ arxiv_id := "p1", title := "T1" } : PaperRec)]).take 25) :=
  ⟨by decide,
   c7_rerank_fallback "q" [{ arxiv_id := "p1", title := "T1" }] 25
     (fun _ _ _ => Except.error "down") "down" (by decide)
     (fun _ _ _ => rfl)⟩

theorem saveStepCount_fst (st : List FeedRec × Nat) (r : FeedRec) :
    (saveStepCount st r).1 = saveStep st.1 r := by
  unfold saveStepCount saveStep
  cases insert_feed_item st.1 r <;> rfl

theorem save_items_fst (records : List FeedRec) :
    ∀ store k,
      (records.foldl saveStepCount (store, k)).1 = saveStore store records := by
  induction records with
  | nil => intro store k; rfl
  | cons r rest ih =>
    intro store k
    have h3 : saveStepCount (store, k) r =
        (saveStep store r, (saveStepCount (store, k) r).2) :=
      Prod.ext (saveStepCount_fst (store, k) r) rfl
    show (rest.foldl saveStepCount (saveStepCount (store, k) r)).1 =
      saveStore store (r :: rest)
    rw [h3]
    exact ih (saveStep store r) _

theorem countFeedKey_append (s1 s2 : List FeedRec) (u p : String) :
    countFeedKey (s1 ++ s2) u p = countFeedKey s1 u p + countFeedKey s2 u p :=
  List.countP_append _ _ _

theorem saveStep_count_one (u p : String) (r : FeedRec) (store : List FeedRec)
    (h : countFeedKey store u p = 1) :
    countFeedKey (saveStep store r) u p = 1 := by
  cases hA : store.any (feedKeyHit r.user_id r.paper_id) with
  | true =>
    have hss : saveStep store r = store := by
      unfold saveStep insert_feed_item
      rw [if_pos hA]
    rw [hss]
    exact h
  | false =>
    have hss : saveStep store r = store ++ [r] := by
      unfold saveStep insert_feed_item
      rw [if_neg (by simp [hA])]
    rw [hss, countFeedKey_append, h]
    have hr0 : countFeedKey [r] u p = 0 := by
      by_cases hku : feedKeyHit u p r = true
      · exfalso
        have hk : r.user_id = u ∧ r.paper_id = p := by
          simpa [feedKeyHit] using hku
        have hpos : 0 < countFeedKey store u p := by
          rw [h]
          exact Nat.zero_lt_one
        obtain ⟨x, hx, hhit⟩ := List.countP_pos_iff.mp hpos
        rw [← hk.1, ← hk.2] at hhit
        have hT : store.any (feedKeyHit r.user_id r.paper_id) = true :=
          List.any_eq_true.mpr ⟨x, hx, hhit⟩
        rw [hA] at hT
        exact Bool.false_ne_true hT
      · unfold countFeedKey
        simp [List.countP_cons, hku]
    rw [hr0]

theorem saveStore_count_one (u p : String) (records : List FeedRec) :
    ∀ store, countFeedKey store u p = 1 →
      countFeedKey (saveStore store records) u p = 1 := by
  induction records with
  | nil => intro store h; exact h
  | cons r rest ih =>
    intro store h
    exact ih (saveStep store r) (saveStep_count_one u p r store h)

/-- C8: inserting the same (user_id, paper_id) feed record twice leaves
exactly one stored row: the duplicate insert raises a unique-constraint
error that the loop swallows as a success-no-op, the run continues with
the remaining records exactly as if the duplicate had not been there, and
no later record can add a second row for the key. -/
theorem c8_feed_insert_idempotent (store : List FeedRec) (r : FeedRec)
    (rest : List FeedRec)
    (h0 : countFeedKey store r.user_id r.paper_id = 0) :
    save_feed_items store (r :: r :: rest) =
      save_feed_items store (r :: rest) ∧
    countFeedKey (save_feed_items store (r :: r :: rest)).1
      r.user_id r.paper_id = 1 := by
  have hany0 : store.any (feedKeyHit r.user_id r.paper_id) = false := by
    cases hA : store.any (feedKeyHit r.user_id r.paper_id) with
    | false => rfl
    | true =>
      obtain ⟨x, hx, hhit⟩ := List.any_eq_true.mp hA
      have hpos : 0 < countFeedKey store r.user_id r.paper_id :=
        List.countP_pos_iff.mpr ⟨x, hx, hhit⟩
      rw [h0] at hpos
      exact absurd hpos (lt_irrefl 0)
  have hins1 : insert_feed_item store r = Except.ok (store ++ [r]) := by
    unfold insert_feed_item
    rw [if_neg (by simp [hany0])]
  have hany1 : (store ++ [r]).any (feedKeyHit r.user_id r.paper_id) = true :=
    List.any_eq_true.mpr ⟨r, List.mem_append_right _ (List.mem_singleton.mpr rfl),
      by simp [feedKeyHit]⟩
  have hins2 : insert_feed_item (store ++ [r]) r = Except.error () := by
    unfold insert_feed_item
    rw [if_pos hany1]
  have hstep1 : saveStepCount (store, 0) r = (store ++ [r], 1) := by
    unfold saveStepCount
    rw [hins1]
  have hstep2 : saveStepCount (store ++ [r], 1) r = (store ++ [r], 1) := by
    unfold saveStepCount
    rw [hins2]
  constructor
  · show (r :: r :: rest).foldl saveStepCount (store, 0) =
      (r :: rest).foldl saveStepCount (store, 0)
    rw [List.foldl_cons, List.foldl_cons, List.foldl_cons, hstep1, hstep2]
  · show countFeedKey
      ((r :: r :: rest).foldl saveStepCount (store, 0)).1 r.user_id r.paper_id
        = 1
    rw [List.foldl_cons, List.foldl_cons, hstep1, hstep2,
      save_items_fst rest (store ++ [r]) 1]
    apply saveStore_count_one
    rw [countFeedKey_append, h0]
    simp [countFeedKey, List.countP_cons, feedKeyHit]

/-- C8 witness: inserting the same row twice into an empty store, followed
by one further distinct row, equals the run without the duplicate, and the
key ends with exactly one row. -/
theorem c8_feed_insert_idempotent_witness :
    (countFeedKey []
      ({ user_id := "u1", paper_id := "p1", relevance_score := 1,
         is_saved := false } : FeedRec).user_id
      ({ user_id := "u1", paper_id := "p1", relevance_score := 1,
         is_saved := false } : FeedRec).paper_id = 0) ∧
    (save_feed_items []
        [{ user_id := "u1", paper_id := "p1", relevance_score := 1,
           is_saved := false },
         { user_id := "u1", paper_id := "p1", relevance_score := 1,
           is_saved := false },
         { user_id := "u1", paper_id := "p2", relevance_score := 1/2,
           is_saved := false }] =
      save_feed_items []
        [{ user_id := "u1", paper_id := "p1", relevance_score := 1,
           is_saved := false },
         { user_id := "u1", paper_id := "p2", relevance_score := 1/2,
           is_saved := false }] ∧
     countFeedKey
      (save_feed_items []
        [{ user_id := "u1", paper_id := "p1", relevance_score := 1,
           is_saved := false },
         { user_id := "u1", paper_id := "p1", relevance_score := 1,
           is_saved := false },
         { user_id := "u1", paper_id := "p2", relevance_score := 1/2,
           is_saved := false }]).1
      ({ user_id := "u1", paper_id := "p1", relevance_score := 1,
         is_saved := false } : FeedRec).user_id
      ({ user_id := "u1", paper_id := "p1", relevance_score := 1,
         is_saved := false } : FeedRec).paper_id = 1) :=
  ⟨by decide,
   c8_feed_insert_idempotent []
     { user_id := "u1", paper_id := "p1", relevance_score := 1,
       is_saved := false }
     [{ user_id := "u1", paper_id := "p2", relevance_score := 1/2,
        is_saved := false }]
     (by decide)⟩
